import Mathlib

/-!
# Shader processor: incremental build orchestration

A shallow embedding of `src/shader_processor.h` (namespace `shader::processor`).

* Paths (`std::filesystem::path`) are character lists in native format.  The
  decomposition functions follow [fs.path.decompose] of the C++ standard on the
  Windows separator set (`/` and `\`, preferred `\`); root names (drive
  prefixes) are not modelled, and narrow/wide string conversions are the
  identity.
* Everything the code asks of the operating system is a field of `Sys`, over an
  abstract world state `σ` that is passed explicitly.  Theorems hold for every
  `Sys`.
* The log sink `log` and the calls of `CreateProcessW` are recorded as a list
  of `Event`s, in program order.
* `fs::create_directory` throws when the directory cannot be created,
  `fs::last_write_time` throws for a path without metadata and
  `WaitForSingleObject(.., INFINITE)` may never return: these are explicit
  outcomes (`Status.threw`, `Status.hung`) of a run.
-/

namespace ShaderProcessor

/-! ## Paths -/

/-- A `std::filesystem::path`, as the characters of its native pathname. -/
abbrev Path := List Char

/-- Directory separators of the native format (`/` and the preferred `\`). -/
def isSeparator (c : Char) : Bool := c == '/' || c == '\\'

/-- The preferred separator, inserted by `operator/`. -/
def preferredSeparator : Char := '\\'

/-- Model of `path::filename()`: the characters after the last separator. -/
def filename (p : Path) : Path :=
  (p.reverse.takeWhile (fun c => !isSeparator c)).reverse

/-- The prefix of `f` that ends before its last period. -/
def beforeLastDot (f : List Char) : List Char :=
  ((f.reverse.dropWhile (fun c => c != '.')).drop 1).reverse

/-- Stem of a filename `f` ([fs.path.decompose]): `f` itself if it has no
period other than a leading one or is `.` or `..`; otherwise the prefix of `f`
ending before its last period. -/
def stemOfFilename (f : List Char) : List Char :=
  if f = ['.'] ∨ f = ['.', '.'] ∨ (f.drop 1).contains '.' = false then f
  else beforeLastDot f

/-- Model of `path::stem()`. -/
def stem (p : Path) : Path := stemOfFilename (filename p)

/-- Model of `path::extension()`: the suffix of `filename()` not included in
`stem()`. -/
def extension (p : Path) : Path := (filename p).drop (stem p).length

/-- Model of `path::replace_extension(replacement)`: the existing extension is
removed, a period is appended when the replacement is non-empty and does not
begin with one, then the replacement is appended. -/
def replaceExtension (p : Path) (replacement : List Char) : Path :=
  p.take (p.length - (extension p).length)
    ++ (if replacement ≠ [] ∧ replacement.head? ≠ some '.' then ['.'] else [])
    ++ replacement

/-- Model of `operator/` on paths without root names: a right operand with a
root directory replaces the left one; otherwise a preferred separator is
appended when the left operand has a filename, then the right operand. -/
def pathAppend (p q : Path) : Path :=
  if q.head?.any isSeparator then q
  else if filename p ≠ [] then p ++ preferredSeparator :: q
  else p ++ q

/-- Model of `path::generic_string()`: the pathname with `/` as separator. -/
def genericString (p : Path) : List Char :=
  p.map (fun c => if c = '\\' then '/' else c)

/-! ## The operating system interface -/

/-- The operations the code performs on the world, over a world state `σ`. -/
structure Sys (σ : Type) where
  /-- Value of `fs::absolute` (fixed by the current directory of the process). -/
  absolute : Path → Path
  /-- Value of `fs::exists`. -/
  pathExists : σ → Path → Bool
  /-- Value of `fs::is_directory`. -/
  isDirectory : σ → Path → Bool
  /-- Value of `fs::is_regular_file`. -/
  isRegularFile : σ → Path → Bool
  /-- Entries of `fs::directory_iterator`, in enumeration order. -/
  directoryEntries : σ → Path → List Path
  /-- Value of `fs::last_write_time`; `none` when the call throws. -/
  lastWriteTime : σ → Path → Option Int
  /-- Effect of `fs::create_directory`; `none` when the call throws (the parent of the
  path is missing, for one). -/
  createDirectory : σ → Path → Option σ
  /-- Effect of `CreateProcessW(exec_file, args, ..)`: the returned `BOOL` and the new
  world. -/
  createProcessW : σ → List Char → List Char → Bool × σ
  /-- Value of `GetLastError()`. -/
  getLastError : σ → Nat
  /-- Effect of `WaitForSingleObject(pi.hProcess, INFINITE)`; `none` when the child
  never terminates. -/
  waitForSingleObject : σ → Option σ

/-- What the code does that is visible from outside, in program order. -/
inductive Event where
  /-- A call of the log sink `log(msg)`. -/
  | log (msg : List Char)
  /-- A call of `CreateProcessW` made by `runProcess(exec_file, args)`. -/
  | launch (exec_file args : List Char)
  deriving DecidableEq

/-- How a run of a piece of code ends. -/
inductive Status where
  /-- Control reaches the end of the loop body (or a `continue`). -/
  | returned
  /-- An exception of `fs::create_directory` or `fs::last_write_time` leaves
  `processShaders`. -/
  | threw
  /-- The wait for the child process never returns. -/
  | hung
  deriving DecidableEq

/-! ## `namespace internal` -/

/-- The `enum class ShaderFileType`. -/
inductive ShaderFileType where
  | Unknown
  | Vertex
  | Fragment
  deriving DecidableEq

/-- Model of `shaderTypeToWString`. -/
def shaderTypeToWString (type : ShaderFileType) : List Char :=
  match type with
  | ShaderFileType.Unknown => "unknown".toList
  | ShaderFileType.Vertex => "vertex".toList
  | ShaderFileType.Fragment => "fragment".toList

/-- Outcome of one call of `runProcess`. -/
structure ProcessRun (σ : Type) where
  /-- The returned `bool`; `none` when the call never returns. -/
  result : Option Bool
  events : List Event
  state : σ

/-- Model of `runProcess(exec_file, args)`. -/
def runProcess {σ : Type} (sys : Sys σ) (s : σ) (exec_file args : List Char) :
    ProcessRun σ :=
  let created := sys.createProcessW s exec_file args
  if created.1 = false then
    let err := sys.getLastError created.2
    let err_string := "Failed to start process, error: ".toList ++ (Nat.repr err).toList
    { result := some false
      events := [Event.launch exec_file args, Event.log err_string]
      state := created.2 }
  else
    match sys.waitForSingleObject created.2 with
    | none =>
      { result := none, events := [Event.launch exec_file args], state := created.2 }
    | some s2 =>
      { result := some true, events := [Event.launch exec_file args], state := s2 }

/-! ## `findShaderFiles`, `detectShaderFileType`, `processShaders` -/

/-- Model of `findShaderFiles(path)`: the loop over the directory iterator
appends to `out_files`. -/
def findShaderFiles {σ : Type} (sys : Sys σ) (s : σ) (path : Path) : List Path :=
  if !sys.pathExists s path || !sys.isDirectory s path then []
  else
    (sys.directoryEntries s path).foldl
      (fun out_files directory_entry =>
        if sys.isRegularFile s directory_entry then
          if extension directory_entry ≠ ".sc".toList then out_files
          else out_files ++ [directory_entry]
        else out_files)
      []

/-- Model of `detectShaderFileType(file)`. -/
def detectShaderFileType (file : Path) : ShaderFileType :=
  let stem := stem file
  if extension stem = ".vs".toList then ShaderFileType.Vertex
  else if extension stem = ".fs".toList then ShaderFileType.Fragment
  else ShaderFileType.Unknown

/-- Outcome of running a part of `processShaders`. -/
structure Run (σ : Type) where
  events : List Event
  state : σ
  status : Status

/-- The constant `shader_exec_path` of `processShaders`. -/
def shaderExecPath {σ : Type} (sys : Sys σ) (shader_tool_dir : Path) : Path :=
  sys.absolute (pathAppend shader_tool_dir "shadercRelease.exe".toList)

/-- The constant `varying_file_path` of `processShaders`. -/
def varyingFilePath {σ : Type} (sys : Sys σ) (shader_tool_dir : Path) : Path :=
  sys.absolute (pathAppend shader_tool_dir "varying.def.sc".toList)

/-- The local `input_file` of the loop body. -/
def inputFile {σ : Type} (sys : Sys σ) (file : Path) : Path :=
  sys.absolute file

/-- The local `output_file` of the loop body, after `replace_extension(".bin")`. -/
def outputFile {σ : Type} (sys : Sys σ) (shader_bin_dir file : Path) : Path :=
  replaceExtension (sys.absolute (pathAppend shader_bin_dir (filename file))) ".bin".toList

/-- The string streamed into `command` by the loop body. -/
def buildCommand {σ : Type} (sys : Sys σ) (shader_tool_dir input_file output_file : Path)
    (shader_type_wstr : List Char) : List Char :=
  "-f \"".toList ++ input_file ++ "\" ".toList ++ "-o \"".toList
    ++ output_file ++ "\" ".toList ++ "--type ".toList ++ shader_type_wstr
    ++ " ".toList ++ "--platform windows ".toList ++ "--profile 120 ".toList ++ "-i \"".toList
    ++ sys.absolute shader_tool_dir ++ "\" ".toList
    ++ "--varyingdef \"".toList ++ varyingFilePath sys shader_tool_dir ++ "\"".toList

/-- The tail of the loop body of `processShaders`, from the conversion of the
shader type to the success message. -/
def compileShader {σ : Type} (sys : Sys σ) (shader_tool_dir : Path) (s : σ)
    (shader_type : ShaderFileType) (input_file output_file : Path) : Run σ :=
  let shader_type_wstr := shaderTypeToWString shader_type
  let command := buildCommand sys shader_tool_dir input_file output_file shader_type_wstr
  let ran := runProcess sys s (shaderExecPath sys shader_tool_dir) command
  match ran.result with
  | some true =>
    let success_msg := "Successfuly processed shader : ".toList ++ genericString output_file
    { events := ran.events ++ [Event.log success_msg], state := ran.state,
      status := Status.returned }
  | some false => { events := ran.events, state := ran.state, status := Status.returned }
  | none => { events := ran.events, state := ran.state, status := Status.hung }

/-- The body of the `for` loop of `processShaders`, for one `file`. -/
def processFile {σ : Type} (sys : Sys σ) (shader_bin_dir shader_tool_dir : Path) (s : σ)
    (file : Path) : Run σ :=
  let shader_type := detectShaderFileType file
  if shader_type = ShaderFileType.Unknown then
    { events := [], state := s, status := Status.returned }
  else
    let discovered := Event.log ("Discovered shader file : ".toList ++ genericString file)
    let input_file := inputFile sys file
    let output_file := outputFile sys shader_bin_dir file
    let compiled := compileShader sys shader_tool_dir s shader_type input_file output_file
    if sys.pathExists s output_file then
      match sys.lastWriteTime s input_file with
      | none => { events := [discovered], state := s, status := Status.threw }
      | some source_timestamp =>
        match sys.lastWriteTime s output_file with
        | none => { events := [discovered], state := s, status := Status.threw }
        | some binary_timestamp =>
          if binary_timestamp > source_timestamp then
            { events := [discovered,
                Event.log ("Skipping file : ".toList ++ genericString input_file)],
              state := s, status := Status.returned }
          else { compiled with events := discovered :: compiled.events }
    else { compiled with events := discovered :: compiled.events }

/-- The `for` loop of `processShaders` over `files`. -/
def processLoop {σ : Type} (sys : Sys σ) (shader_bin_dir shader_tool_dir : Path) :
    σ → List Path → Run σ
  | s, [] => { events := [], state := s, status := Status.returned }
  | s, file :: rest =>
    let r := processFile sys shader_bin_dir shader_tool_dir s file
    match r.status with
    | Status.returned =>
      let r2 := processLoop sys shader_bin_dir shader_tool_dir r.state rest
      { r2 with events := r.events ++ r2.events }
    | _ => r

/-- The statement of `processShaders` before the loop: the output folder is
created if it does not exist. The result is the state in which the loop starts,
or `none` when `fs::create_directory` throws. -/
def createOutputFolder {σ : Type} (sys : Sys σ) (s : σ) (shader_bin_dir : Path) : Option σ :=
  if !sys.pathExists s shader_bin_dir then sys.createDirectory s shader_bin_dir else some s

/-- Model of `processShaders(files, shader_source_dir, shader_bin_dir,
shader_tool_dir)`: an exception of `fs::create_directory` leaves the function
before the loop. -/
def processShaders {σ : Type} (sys : Sys σ) (s : σ) (files : List Path)
    (_shader_source_dir shader_bin_dir shader_tool_dir : Path) : Run σ :=
  match createOutputFolder sys s shader_bin_dir with
  | none => { events := [], state := s, status := Status.threw }
  | some s1 => processLoop sys shader_bin_dir shader_tool_dir s1 files

/-! ## Reading a trace -/

/-- The calls of `CreateProcessW` in a trace, as (executable, arguments), in order. -/
def launches : List Event → List (List Char × List Char)
  | [] => []
  | Event.launch exec_file args :: rest => (exec_file, args) :: launches rest
  | Event.log _ :: rest => launches rest

/-- The messages passed to the log sink in a trace, in order. -/
def logged : List Event → List (List Char)
  | [] => []
  | Event.log msg :: rest => msg :: logged rest
  | Event.launch _ _ :: rest => logged rest

/-! ## Reading a state -/

/-- The skip test of the loop body: the output exists and its last-write time is
strictly greater than the one of the source. -/
def outputIsNewer {σ : Type} (sys : Sys σ) (s : σ) (shader_bin_dir file : Path) : Bool :=
  sys.pathExists s (outputFile sys shader_bin_dir file) &&
    match sys.lastWriteTime s (inputFile sys file),
      sys.lastWriteTime s (outputFile sys shader_bin_dir file) with
    | some source_timestamp, some binary_timestamp =>
      decide (binary_timestamp > source_timestamp)
    | _, _ => false

/-- The last-write times the loop body reads for `file` are available: when the
output exists, source and output both have one. -/
def TimestampsReadable {σ : Type} (sys : Sys σ) (s : σ) (shader_bin_dir file : Path) : Prop :=
  sys.pathExists s (outputFile sys shader_bin_dir file) = true →
    (sys.lastWriteTime s (inputFile sys file)).isSome = true ∧
    (sys.lastWriteTime s (outputFile sys shader_bin_dir file)).isSome = true

instance {σ : Type} (sys : Sys σ) (s : σ) (shader_bin_dir file : Path) :
    Decidable (TimestampsReadable sys s shader_bin_dir file) := by
  unfold TimestampsReadable
  infer_instance

/-- The states `a` and `b` agree on existence and last-write time of every path. -/
def SameMetadata {σ : Type} (sys : Sys σ) (a b : σ) : Prop :=
  (∀ p, sys.pathExists b p = sys.pathExists a p) ∧
  (∀ p, sys.lastWriteTime b p = sys.lastWriteTime a p)

/-- Creating a child process and waiting for it leave existence and last-write
times as they are. -/
def MetadataFixed {σ : Type} (sys : Sys σ) : Prop :=
  (∀ s exec_file args, SameMetadata sys s (sys.createProcessW s exec_file args).2) ∧
  (∀ s s2, sys.waitForSingleObject s = some s2 → SameMetadata sys s s2)

/-- Every child process terminates: the wait returns. -/
def ChildrenTerminate {σ : Type} (sys : Sys σ) : Prop :=
  ∀ s, (sys.waitForSingleObject s).isSome = true

/-- The pair (executable, arguments) that the loop body hands to `runProcess`
for `file`. -/
def launchOf {σ : Type} (sys : Sys σ) (shader_bin_dir shader_tool_dir file : Path) :
    List Char × List Char :=
  (shaderExecPath sys shader_tool_dir,
    buildCommand sys shader_tool_dir (inputFile sys file) (outputFile sys shader_bin_dir file)
      (shaderTypeToWString (detectShaderFileType file)))

/-! ## A concrete system -/

/-- A small disk: regular files with their last-write times, and directories
with their entry names in enumeration order; all keyed by absolute path. -/
structure Disk where
  files : List (Path × Int)
  dirs : List (Path × List (List Char))

/-- Last-write time of the regular file at the absolute path `p`. -/
def Disk.mtime (d : Disk) (p : Path) : Option Int := d.files.lookup p

/-- Absolute form of a path for a process whose current directory is `C:\w`. -/
def demoAbsolute (p : Path) : Path :=
  if p.take 3 = "C:\\".toList then p else "C:\\w\\".toList ++ p

/-- The absolute path `p` without its last component. -/
def demoParent (p : Path) : Path :=
  ((p.reverse.dropWhile (fun c => !isSeparator c)).drop 1).reverse

/-- A system over `Disk`: a directory is created when its parent is a directory
of the disk (otherwise the call throws); a child process is created exactly when
the executable is a file of the disk (otherwise error 2, file not found),
terminates, and leaves the disk as it is. -/
def demoSys : Sys Disk where
  absolute := demoAbsolute
  pathExists d p :=
    (d.mtime (demoAbsolute p)).isSome || (d.dirs.lookup (demoAbsolute p)).isSome
  isDirectory d p := (d.dirs.lookup (demoAbsolute p)).isSome
  isRegularFile d p := (d.mtime (demoAbsolute p)).isSome
  directoryEntries d p :=
    ((d.dirs.lookup (demoAbsolute p)).getD []).map (fun name => pathAppend p name)
  lastWriteTime d p := d.mtime (demoAbsolute p)
  createDirectory d p :=
    if (d.dirs.lookup (demoParent (demoAbsolute p))).isSome then
      some { files := d.files, dirs := d.dirs ++ [(demoAbsolute p, [])] }
    else none
  createProcessW d exec_file _ := ((d.mtime exec_file).isSome, d)
  getLastError _ := 2
  waitForSingleObject d := some d

/-- The system `demoSys` with a compiler that never terminates. -/
def demoSysHanging : Sys Disk :=
  { demoSys with waitForSingleObject := fun _ => none }

/-- A disk with the sources `a.vs.sc`, `b.fs.sc`, `common.sc` and `c.txt` in
`C:\w\shaders`, the output `b.fs.bin` (newer than its source) in `C:\w\bin`, and
the compiler in `C:\w\tools`. -/
def demoDisk : Disk where
  files :=
    [("C:\\w\\shaders\\a.vs.sc".toList, 100), ("C:\\w\\shaders\\b.fs.sc".toList, 100),
     ("C:\\w\\shaders\\common.sc".toList, 100), ("C:\\w\\shaders\\c.txt".toList, 100),
     ("C:\\w\\bin\\b.fs.bin".toList, 200),
     ("C:\\w\\tools\\shadercRelease.exe".toList, 50),
     ("C:\\w\\tools\\varying.def.sc".toList, 50)]
  dirs :=
    [("C:\\w".toList, ["shaders".toList, "bin".toList, "tools".toList]),
     ("C:\\w\\shaders".toList,
        ["a.vs.sc".toList, "b.fs.sc".toList, "common.sc".toList, "c.txt".toList]),
     ("C:\\w\\bin".toList, ["b.fs.bin".toList]),
     ("C:\\w\\tools".toList, ["shadercRelease.exe".toList, "varying.def.sc".toList])]

/-- A disk without the compiler executable: the sources `a.vs.sc`, `b.fs.sc` and
`d.fs.sc`, and the output `b.fs.bin`, newer than its source. -/
def demoDiskNoCompiler : Disk where
  files :=
    [("C:\\w\\shaders\\a.vs.sc".toList, 100), ("C:\\w\\shaders\\b.fs.sc".toList, 100),
     ("C:\\w\\shaders\\d.fs.sc".toList, 100), ("C:\\w\\bin\\b.fs.bin".toList, 200)]
  dirs :=
    [("C:\\w".toList, ["shaders".toList, "bin".toList, "tools".toList]),
     ("C:\\w\\shaders".toList, ["a.vs.sc".toList, "b.fs.sc".toList, "d.fs.sc".toList]),
     ("C:\\w\\bin".toList, ["b.fs.bin".toList]), ("C:\\w\\tools".toList, [])]

/-- A disk with the compiler and two sources without output, `a.vs.sc` and
`d.fs.sc`. -/
def demoDiskStale : Disk where
  files :=
    [("C:\\w\\shaders\\a.vs.sc".toList, 100), ("C:\\w\\shaders\\d.fs.sc".toList, 100),
     ("C:\\w\\tools\\shadercRelease.exe".toList, 50),
     ("C:\\w\\tools\\varying.def.sc".toList, 50)]
  dirs :=
    [("C:\\w".toList, ["shaders".toList, "bin".toList, "tools".toList]),
     ("C:\\w\\shaders".toList, ["a.vs.sc".toList, "d.fs.sc".toList]),
     ("C:\\w\\bin".toList, []),
     ("C:\\w\\tools".toList, ["shadercRelease.exe".toList, "varying.def.sc".toList])]

/-- Executable test that `pattern` occurs in `text` as a contiguous block. -/
def occursIn (pattern text : List Char) : Bool :=
  text.tails.any (fun t => pattern.isPrefixOf t)

/-! ## Lemmas on path decomposition -/

theorem filename_no_separator (p : Path) : ∀ c ∈ filename p, isSeparator c = false := by
  intro c hc
  unfold filename at hc
  rw [List.mem_reverse] at hc
  have h := List.mem_takeWhile_imp hc
  simpa using h

theorem filename_eq_self {f : Path} (hf : ∀ c ∈ f, isSeparator c = false) :
    filename f = f := by
  unfold filename
  have h : f.reverse.takeWhile (fun c => !isSeparator c) = f.reverse := by
    rw [List.takeWhile_eq_self_iff]
    intro x hx
    simp [hf x (List.mem_reverse.mp hx)]
  rw [h, List.reverse_reverse]

theorem filename_append (base : Path) {f : Path} (hf : ∀ c ∈ f, isSeparator c = false) :
    filename (base ++ f) = filename base ++ f := by
  unfold filename
  rw [List.reverse_append, List.takeWhile_append_of_pos, List.reverse_append,
    List.reverse_reverse]
  intro x hx
  simp [hf x (List.mem_reverse.mp hx)]

theorem filename_suffix (p : Path) : filename p <:+ p := by
  unfold filename
  refine ⟨(p.reverse.dropWhile (fun c => !isSeparator c)).reverse, ?_⟩
  rw [← List.reverse_append, List.takeWhile_append_dropWhile, List.reverse_reverse]

theorem beforeLastDot_split (g e : List Char) (he : '.' ∉ e) :
    beforeLastDot (g ++ '.' :: e) = g := by
  unfold beforeLastDot
  have h1 : (g ++ '.' :: e).reverse = e.reverse ++ '.' :: g.reverse := by simp
  rw [h1, List.dropWhile_append_of_pos]
  · simp
  · intro a ha
    have : a ≠ '.' := fun h => he (h ▸ List.mem_reverse.mp ha)
    simpa using this

theorem exists_last_dot : ∀ (f : List Char), '.' ∈ f →
    ∃ g e, f = g ++ '.' :: e ∧ '.' ∉ e
  | [], h => by simp at h
  | c :: cs, h => by
    by_cases hcs : '.' ∈ cs
    · obtain ⟨g, e, hge, he⟩ := exists_last_dot cs hcs
      exact ⟨c :: g, e, by simp [hge], he⟩
    · have hc : c = '.' := by
        rcases List.mem_cons.mp h with h | h
        · exact h.symm
        · exact absurd h hcs
      exact ⟨[], cs, by simp [hc], hcs⟩

/-- A filename is its own stem, or splits at its last period, which is not leading. -/
theorem stemOfFilename_cases (f : List Char) :
    stemOfFilename f = f ∨
      ∃ g e, f = g ++ '.' :: e ∧ '.' ∉ e ∧ g ≠ [] ∧ stemOfFilename f = g := by
  unfold stemOfFilename
  split
  · exact Or.inl rfl
  · rename_i h
    right
    push_neg at h
    obtain ⟨_, _, h3⟩ := h
    have hmem : '.' ∈ f.drop 1 := by simpa using h3
    obtain ⟨g, e, hge, he⟩ := exists_last_dot f (List.mem_of_mem_drop hmem)
    refine ⟨g, e, hge, he, ?_, ?_⟩
    · rintro rfl
      rw [hge] at hmem
      simp at hmem
      exact he hmem
    · rw [hge]; exact beforeLastDot_split g e he

/-- The stem of `g.e` is `g` when `g` is not empty, `e` has no period and the
name is not `..`. -/
theorem stemOfFilename_split (g e : List Char) (hg : g ≠ []) (he : '.' ∉ e)
    (hdd : g ++ '.' :: e ≠ ['.', '.']) : stemOfFilename (g ++ '.' :: e) = g := by
  unfold stemOfFilename
  rw [if_neg]
  · exact beforeLastDot_split g e he
  · push_neg
    refine ⟨?_, hdd, ?_⟩
    · intro h
      have := congrArg List.length h
      cases g with
      | nil => exact hg rfl
      | cons a t => simp at this
    · cases g with
      | nil => exact absurd rfl hg
      | cons a t => simp

theorem stemOfFilename_initial (f : List Char) : stemOfFilename f <+: f := by
  rcases stemOfFilename_cases f with h | ⟨g, e, hge, _, _, hs⟩
  · rw [h]
  · rw [hs]; exact ⟨'.' :: e, hge.symm⟩

theorem stem_no_separator (p : Path) : ∀ c ∈ stem p, isSeparator c = false := by
  intro c hc
  exact filename_no_separator p c ((stemOfFilename_initial (filename p)).subset hc)

theorem extension_suffix (p : Path) : extension p <:+ p :=
  (List.drop_suffix _ _).trans (filename_suffix p)

theorem take_append_extension (p : Path) :
    p.take (p.length - (extension p).length) ++ extension p = p := by
  obtain ⟨t, ht⟩ := extension_suffix p
  have hlen : p.length - (extension p).length = t.length := by
    have := congrArg List.length ht
    simp at this
    omega
  have h2 : p.take t.length = t := by
    have h3 := List.take_left t (extension p)
    rwa [ht] at h3
  rw [hlen, h2, ht]

theorem extension_filename (p : Path) : extension (filename p) = extension p := by
  unfold extension stem
  rw [filename_eq_self (filename_no_separator p)]

theorem extension_split {p : Path} {g e : List Char} (hf : filename p = g ++ '.' :: e)
    (hg : g ≠ []) (he : '.' ∉ e) (hdd : g ++ '.' :: e ≠ ['.', '.']) :
    stem p = g ∧ extension p = '.' :: e := by
  have hs : stem p = g := by
    unfold stem
    rw [hf]
    exact stemOfFilename_split g e hg he hdd
  refine ⟨hs, ?_⟩
  unfold extension
  rw [hs, hf, List.drop_left]

theorem extension_ne_nil_split {p : Path} (h : extension p ≠ []) :
    ∃ g e, filename p = g ++ '.' :: e ∧ '.' ∉ e ∧ g ≠ [] ∧ stem p = g
      ∧ extension p = '.' :: e := by
  rcases stemOfFilename_cases (filename p) with hs | ⟨g, e, hge, he, hg, hs⟩
  · exfalso
    apply h
    unfold extension stem
    rw [hs, List.drop_length]
  · refine ⟨g, e, hge, he, hg, hs, ?_⟩
    unfold extension stem
    rw [hs]
    conv_lhs => rw [hge]
    rw [List.drop_left]

/-- The extension of the stem is `.tag` exactly for filenames `name.tag.ext` with
a non-empty `name` and no period in `ext`. -/
theorem extension_stem_iff (file : Path) (tag : List Char) (htag : '.' ∉ tag)
    (hne : tag ≠ []) :
    extension (stem file) = '.' :: tag ↔
      ∃ name ext, filename file = name ++ '.' :: tag ++ '.' :: ext ∧ name ≠ []
        ∧ '.' ∉ ext := by
  have hfs : filename (stem file) = stem file := filename_eq_self (stem_no_separator file)
  constructor
  · intro h
    have hnil : extension (stem file) ≠ [] := by rw [h]; simp
    obtain ⟨g2, e2, hge2, -, hg2, hs2, hx2⟩ := extension_ne_nil_split hnil
    rw [h] at hx2
    have he2 : e2 = tag := by
      have := List.tail_eq_of_cons_eq hx2
      exact this.symm
    subst he2
    rw [hfs] at hge2
    rcases stemOfFilename_cases (filename file) with hs | ⟨g, e, hge, he, -, hs⟩
    · exfalso
      have h1 : stem (stem file) = stem file := by
        show stemOfFilename (filename (stem file)) = stem file
        rw [hfs]
        show stemOfFilename (stemOfFilename (filename file)) = stemOfFilename (filename file)
        rw [hs]
        exact hs
      rw [hs2] at h1
      have hlen := congrArg List.length hge2
      rw [← h1] at hlen
      simp at hlen
    · refine ⟨g2, e, ?_, hg2, he⟩
      have hsg : stem file = g := hs
      rw [hge, ← hsg, hge2]
  · rintro ⟨name, ext, hf, hname, hext⟩
    have hf2 : filename file = (name ++ '.' :: tag) ++ '.' :: ext := by
      rw [hf]
    have h1 := extension_split hf2 (by simp) hext (by
      intro h
      have := congrArg List.length h
      cases name with
      | nil => exact hname rfl
      | cons a t => simp at this; omega)
    have hfs2 : filename (stem file) = name ++ '.' :: tag := by rw [hfs]; exact h1.1
    have h2 := extension_split hfs2 hname htag (by
      intro h
      have := congrArg List.length h
      cases name with
      | nil => exact hname rfl
      | cons a t =>
        cases tag with
        | nil => exact hne rfl
        | cons b u => simp at this; omega)
    exact h2.2

theorem detectShaderFileType_vertex_iff (file : Path) :
    detectShaderFileType file = ShaderFileType.Vertex ↔
      extension (stem file) = ".vs".toList := by
  unfold detectShaderFileType
  dsimp only
  by_cases h1 : extension (stem file) = ".vs".toList
  · rw [if_pos h1]; exact iff_of_true rfl h1
  · rw [if_neg h1]
    refine iff_of_false ?_ h1
    split_ifs <;> decide

theorem detectShaderFileType_fragment_iff (file : Path) :
    detectShaderFileType file = ShaderFileType.Fragment ↔
      extension (stem file) = ".fs".toList := by
  unfold detectShaderFileType
  dsimp only
  by_cases h1 : extension (stem file) = ".vs".toList
  · rw [if_pos h1]
    refine iff_of_false (by decide) ?_
    rw [h1]; decide
  · rw [if_neg h1]
    by_cases h2 : extension (stem file) = ".fs".toList
    · rw [if_pos h2]; exact iff_of_true rfl h2
    · rw [if_neg h2]; exact iff_of_false (by decide) h2

theorem detectShaderFileType_unknown_iff (file : Path) :
    detectShaderFileType file = ShaderFileType.Unknown ↔
      extension (stem file) ≠ ".vs".toList ∧ extension (stem file) ≠ ".fs".toList := by
  unfold detectShaderFileType
  dsimp only
  by_cases h1 : extension (stem file) = ".vs".toList
  · rw [if_pos h1]
    exact iff_of_false (by decide) (fun h => h.1 h1)
  · rw [if_neg h1]
    by_cases h2 : extension (stem file) = ".fs".toList
    · rw [if_pos h2]; exact iff_of_false (by decide) (fun h => h.2 h2)
    · rw [if_neg h2]; exact iff_of_true rfl ⟨h1, h2⟩

/-- C2 (as amended): `detectShaderFileType` returns Vertex exactly for the paths
whose filename is `name.vs.ext` with a non-empty `name` and an `ext` without a
period, Fragment exactly for those whose filename is `name.fs.ext` of the same
shape, and Unknown for every other path. -/
theorem detectShaderFileType_two_level (file : Path) :
    (detectShaderFileType file = ShaderFileType.Vertex ↔
      ∃ name ext, filename file = name ++ ".vs.".toList ++ ext ∧ name ≠ [] ∧ '.' ∉ ext) ∧
    (detectShaderFileType file = ShaderFileType.Fragment ↔
      ∃ name ext, filename file = name ++ ".fs.".toList ++ ext ∧ name ≠ [] ∧ '.' ∉ ext) ∧
    (detectShaderFileType file = ShaderFileType.Unknown ↔
      ¬ (∃ name ext, filename file = name ++ ".vs.".toList ++ ext ∧ name ≠ [] ∧ '.' ∉ ext) ∧
      ¬ (∃ name ext, filename file = name ++ ".fs.".toList ++ ext ∧ name ≠ []
          ∧ '.' ∉ ext)) := by
  have hv := extension_stem_iff file "vs".toList (by decide) (by decide)
  have hf := extension_stem_iff file "fs".toList (by decide) (by decide)
  have ev : ∀ (name ext : List Char),
      name ++ ".vs.".toList ++ ext = name ++ '.' :: "vs".toList ++ '.' :: ext := by
    intro name ext; simp
  have ef : ∀ (name ext : List Char),
      name ++ ".fs.".toList ++ ext = name ++ '.' :: "fs".toList ++ '.' :: ext := by
    intro name ext; simp
  simp only [ev, ef]
  refine ⟨?_, ?_, ?_⟩
  · rw [detectShaderFileType_vertex_iff]; exact hv
  · rw [detectShaderFileType_fragment_iff]; exact hf
  · rw [detectShaderFileType_unknown_iff, ← hv, ← hf]
    exact Iff.rfl

/-- C2 (counterexample): the filename `.vs.sc` ends in `.vs.sc`, yet the file is
classified Unknown: its stem `.vs` is a name with a leading period only, which
has no extension. -/
theorem detectShaderFileType_dot_vs_sc :
    filename "shaders/.vs.sc".toList = ".vs.".toList ++ "sc".toList ∧
      stem "shaders/.vs.sc".toList = ".vs".toList ∧
      extension ".vs".toList = [] ∧
      detectShaderFileType "shaders/.vs.sc".toList = ShaderFileType.Unknown := by
  refine ⟨by decide, by decide, by decide, by decide⟩

/-- C2 (witness): `a.vs.sc` is `name.vs.ext` with `name = a` and `ext = sc`. -/
theorem detectShaderFileType_two_level_witness :
    detectShaderFileType "shaders\\a.vs.sc".toList = ShaderFileType.Vertex :=
  (detectShaderFileType_two_level "shaders\\a.vs.sc".toList).1.mpr
    ⟨"a".toList, "sc".toList, by decide, by decide, by decide⟩

/-! ## Lemmas on the loop -/

theorem launches_append (a b : List Event) : launches (a ++ b) = launches a ++ launches b := by
  induction a with
  | nil => rfl
  | cons e t ih => cases e <;> simp [launches, ih]

theorem runProcess_failed {σ : Type} (sys : Sys σ) (s : σ) (exec_file args : List Char)
    (h : (sys.createProcessW s exec_file args).1 = false) :
    runProcess sys s exec_file args =
      { result := some false
        events := [Event.launch exec_file args,
          Event.log ("Failed to start process, error: ".toList
            ++ (Nat.repr (sys.getLastError (sys.createProcessW s exec_file args).2)).toList)]
        state := (sys.createProcessW s exec_file args).2 } := by
  unfold runProcess
  simp only [h, if_true]

theorem runProcess_started {σ : Type} (sys : Sys σ) (s s2 : σ) (exec_file args : List Char)
    (h : (sys.createProcessW s exec_file args).1 = true)
    (hw : sys.waitForSingleObject (sys.createProcessW s exec_file args).2 = some s2) :
    runProcess sys s exec_file args =
      { result := some true, events := [Event.launch exec_file args], state := s2 } := by
  unfold runProcess
  simp [h, hw]

theorem runProcess_hung {σ : Type} (sys : Sys σ) (s : σ) (exec_file args : List Char)
    (h : (sys.createProcessW s exec_file args).1 = true)
    (hw : sys.waitForSingleObject (sys.createProcessW s exec_file args).2 = none) :
    runProcess sys s exec_file args =
      { result := none, events := [Event.launch exec_file args],
        state := (sys.createProcessW s exec_file args).2 } := by
  unfold runProcess
  simp [h, hw]

theorem runProcess_launches {σ : Type} (sys : Sys σ) (s : σ) (exec_file args : List Char) :
    launches (runProcess sys s exec_file args).events = [(exec_file, args)] := by
  cases h : (sys.createProcessW s exec_file args).1 with
  | false => rw [runProcess_failed sys s exec_file args h]; rfl
  | true =>
    cases hw : sys.waitForSingleObject (sys.createProcessW s exec_file args).2 with
    | none => rw [runProcess_hung sys s exec_file args h hw]; rfl
    | some s2 => rw [runProcess_started sys s s2 exec_file args h hw]; rfl

theorem compileShader_launches {σ : Type} (sys : Sys σ) (shader_tool_dir : Path) (s : σ)
    (shader_type : ShaderFileType) (input_file output_file : Path) :
    launches (compileShader sys shader_tool_dir s shader_type input_file output_file).events =
      [(shaderExecPath sys shader_tool_dir,
        buildCommand sys shader_tool_dir input_file output_file
          (shaderTypeToWString shader_type))] := by
  have h := runProcess_launches sys s (shaderExecPath sys shader_tool_dir)
    (buildCommand sys shader_tool_dir input_file output_file (shaderTypeToWString shader_type))
  unfold compileShader
  dsimp only
  split
  · rw [launches_append, h]; rfl
  · exact h
  · exact h

theorem processFile_unknown {σ : Type} (sys : Sys σ) (shader_bin_dir shader_tool_dir : Path)
    (s : σ) (file : Path) (h : detectShaderFileType file = ShaderFileType.Unknown) :
    processFile sys shader_bin_dir shader_tool_dir s file =
      { events := [], state := s, status := Status.returned } := by
  unfold processFile
  simp [h]

/-- The loop body on a classified file whose output does not exist or is not
strictly newer than the source: the compile step runs. -/
theorem processFile_stale {σ : Type} (sys : Sys σ) (shader_bin_dir shader_tool_dir : Path)
    (s : σ) (file : Path) (hty : detectShaderFileType file ≠ ShaderFileType.Unknown)
    (hst : sys.pathExists s (outputFile sys shader_bin_dir file) = false ∨
      ∃ ts tb, sys.lastWriteTime s (inputFile sys file) = some ts ∧
        sys.lastWriteTime s (outputFile sys shader_bin_dir file) = some tb ∧ tb ≤ ts) :
    processFile sys shader_bin_dir shader_tool_dir s file =
      { events := Event.log ("Discovered shader file : ".toList ++ genericString file) ::
          (compileShader sys shader_tool_dir s (detectShaderFileType file) (inputFile sys file)
            (outputFile sys shader_bin_dir file)).events
        state := (compileShader sys shader_tool_dir s (detectShaderFileType file)
          (inputFile sys file) (outputFile sys shader_bin_dir file)).state
        status := (compileShader sys shader_tool_dir s (detectShaderFileType file)
          (inputFile sys file) (outputFile sys shader_bin_dir file)).status } := by
  unfold processFile
  dsimp only
  rw [if_neg hty]
  rcases hst with hne | ⟨ts, tb, h1, h2, hle⟩
  · simp [hne]
  · cases hex : sys.pathExists s (outputFile sys shader_bin_dir file) with
    | false => simp
    | true =>
      simp only [h1, h2, if_true]
      rw [if_neg (not_lt.mpr hle)]

/-- The loop body on a classified file whose output exists and is strictly
newer than the source: the file is skipped. -/
theorem processFile_fresh {σ : Type} (sys : Sys σ) (shader_bin_dir shader_tool_dir : Path)
    (s : σ) (file : Path) (hty : detectShaderFileType file ≠ ShaderFileType.Unknown)
    (ts tb : Int) (hex : sys.pathExists s (outputFile sys shader_bin_dir file) = true)
    (h1 : sys.lastWriteTime s (inputFile sys file) = some ts)
    (h2 : sys.lastWriteTime s (outputFile sys shader_bin_dir file) = some tb) (hlt : tb > ts) :
    processFile sys shader_bin_dir shader_tool_dir s file =
      { events := [Event.log ("Discovered shader file : ".toList ++ genericString file),
          Event.log ("Skipping file : ".toList ++ genericString (inputFile sys file))]
        state := s, status := Status.returned } := by
  unfold processFile
  dsimp only
  rw [if_neg hty]
  simp only [hex, h1, h2, if_true]
  rw [if_pos hlt]

theorem processLoop_nil {σ : Type} (sys : Sys σ) (shader_bin_dir shader_tool_dir : Path)
    (s : σ) : processLoop sys shader_bin_dir shader_tool_dir s [] =
      { events := [], state := s, status := Status.returned } := rfl

theorem processLoop_cons_returned {σ : Type} (sys : Sys σ)
    (shader_bin_dir shader_tool_dir : Path) (s : σ) (file : Path) (rest : List Path)
    (h : (processFile sys shader_bin_dir shader_tool_dir s file).status = Status.returned) :
    processLoop sys shader_bin_dir shader_tool_dir s (file :: rest) =
      { events := (processFile sys shader_bin_dir shader_tool_dir s file).events ++
          (processLoop sys shader_bin_dir shader_tool_dir
            (processFile sys shader_bin_dir shader_tool_dir s file).state rest).events
        state := (processLoop sys shader_bin_dir shader_tool_dir
            (processFile sys shader_bin_dir shader_tool_dir s file).state rest).state
        status := (processLoop sys shader_bin_dir shader_tool_dir
            (processFile sys shader_bin_dir shader_tool_dir s file).state rest).status } := by
  rw [processLoop]
  dsimp only
  rw [h]

theorem processLoop_cons_stopped {σ : Type} (sys : Sys σ)
    (shader_bin_dir shader_tool_dir : Path) (s : σ) (file : Path) (rest : List Path)
    (h : (processFile sys shader_bin_dir shader_tool_dir s file).status ≠ Status.returned) :
    processLoop sys shader_bin_dir shader_tool_dir s (file :: rest) =
      processFile sys shader_bin_dir shader_tool_dir s file := by
  rw [processLoop]
  dsimp only
  split
  · rename_i h2; exact absurd h2 h
  · rfl

theorem compileShader_failed {σ : Type} (sys : Sys σ) (shader_tool_dir : Path) (s : σ)
    (shader_type : ShaderFileType) (input_file output_file : Path)
    (h : (sys.createProcessW s (shaderExecPath sys shader_tool_dir)
      (buildCommand sys shader_tool_dir input_file output_file
        (shaderTypeToWString shader_type))).1 = false) :
    compileShader sys shader_tool_dir s shader_type input_file output_file =
      { events := (runProcess sys s (shaderExecPath sys shader_tool_dir)
          (buildCommand sys shader_tool_dir input_file output_file
            (shaderTypeToWString shader_type))).events
        state := (sys.createProcessW s (shaderExecPath sys shader_tool_dir)
          (buildCommand sys shader_tool_dir input_file output_file
            (shaderTypeToWString shader_type))).2
        status := Status.returned } := by
  unfold compileShader
  dsimp only
  rw [runProcess_failed sys s _ _ h]

theorem compileShader_started {σ : Type} (sys : Sys σ) (shader_tool_dir : Path) (s s2 : σ)
    (shader_type : ShaderFileType) (input_file output_file : Path)
    (h : (sys.createProcessW s (shaderExecPath sys shader_tool_dir)
      (buildCommand sys shader_tool_dir input_file output_file
        (shaderTypeToWString shader_type))).1 = true)
    (hw : sys.waitForSingleObject (sys.createProcessW s (shaderExecPath sys shader_tool_dir)
      (buildCommand sys shader_tool_dir input_file output_file
        (shaderTypeToWString shader_type))).2 = some s2) :
    compileShader sys shader_tool_dir s shader_type input_file output_file =
      { events := [Event.launch (shaderExecPath sys shader_tool_dir)
            (buildCommand sys shader_tool_dir input_file output_file
              (shaderTypeToWString shader_type)),
          Event.log ("Successfuly processed shader : ".toList ++ genericString output_file)]
        state := s2
        status := Status.returned } := by
  unfold compileShader
  dsimp only
  rw [runProcess_started sys s s2 _ _ h hw]
  rfl

theorem SameMetadata.refl {σ : Type} (sys : Sys σ) (a : σ) : SameMetadata sys a a :=
  ⟨fun _ => rfl, fun _ => rfl⟩

theorem SameMetadata.trans {σ : Type} {sys : Sys σ} {a b c : σ}
    (h1 : SameMetadata sys a b) (h2 : SameMetadata sys b c) : SameMetadata sys a c :=
  ⟨fun p => (h2.1 p).trans (h1.1 p), fun p => (h2.2 p).trans (h1.2 p)⟩

theorem outputIsNewer_congr {σ : Type} {sys : Sys σ} {a b : σ} (h : SameMetadata sys a b)
    (shader_bin_dir file : Path) :
    outputIsNewer sys b shader_bin_dir file = outputIsNewer sys a shader_bin_dir file := by
  unfold outputIsNewer
  rw [h.1, h.2, h.2]

/-- With terminating children that leave the metadata alone, the compile step
returns and leaves the metadata alone. -/
theorem compileShader_returns {σ : Type} (sys : Sys σ) (hfix : MetadataFixed sys)
    (hterm : ChildrenTerminate sys) (shader_tool_dir : Path) (s : σ)
    (shader_type : ShaderFileType) (input_file output_file : Path) :
    (compileShader sys shader_tool_dir s shader_type input_file output_file).status
        = Status.returned ∧
      SameMetadata sys s
        (compileShader sys shader_tool_dir s shader_type input_file output_file).state := by
  cases h : (sys.createProcessW s (shaderExecPath sys shader_tool_dir)
      (buildCommand sys shader_tool_dir input_file output_file
        (shaderTypeToWString shader_type))).1 with
  | false =>
    rw [compileShader_failed sys shader_tool_dir s shader_type input_file output_file h]
    exact ⟨rfl, hfix.1 s _ _⟩
  | true =>
    have hw := hterm (sys.createProcessW s (shaderExecPath sys shader_tool_dir)
      (buildCommand sys shader_tool_dir input_file output_file
        (shaderTypeToWString shader_type))).2
    obtain ⟨s2, hs2⟩ := Option.isSome_iff_exists.mp hw
    rw [compileShader_started sys shader_tool_dir s s2 shader_type input_file output_file h hs2]
    exact ⟨rfl, (hfix.1 s _ _).trans (hfix.2 _ s2 hs2)⟩

/-- Every launch of the loop body is the launch for its file, which is classified. -/
theorem launches_processFile_mem {σ : Type} (sys : Sys σ)
    (shader_bin_dir shader_tool_dir : Path) (s : σ) (file : Path) (x : List Char × List Char)
    (hx : x ∈ launches (processFile sys shader_bin_dir shader_tool_dir s file).events) :
    detectShaderFileType file ≠ ShaderFileType.Unknown ∧
      x = launchOf sys shader_bin_dir shader_tool_dir file := by
  by_cases hty : detectShaderFileType file = ShaderFileType.Unknown
  · rw [processFile_unknown sys shader_bin_dir shader_tool_dir s file hty] at hx
    simp [launches] at hx
  · refine ⟨hty, ?_⟩
    unfold processFile at hx
    dsimp only at hx
    rw [if_neg hty] at hx
    have hc := compileShader_launches sys shader_tool_dir s (detectShaderFileType file)
      (inputFile sys file) (outputFile sys shader_bin_dir file)
    split at hx
    · split at hx
      · simp [launches] at hx
      · split at hx
        · simp [launches] at hx
        · split at hx
          · simp [launches] at hx
          · simp only [launches] at hx
            rw [hc] at hx
            simpa [launchOf] using hx
    · simp only [launches] at hx
      rw [hc] at hx
      simpa [launchOf] using hx

theorem launches_processLoop_mem {σ : Type} (sys : Sys σ)
    (shader_bin_dir shader_tool_dir : Path) (files : List Path) :
    ∀ (s : σ) (x : List Char × List Char),
      x ∈ launches (processLoop sys shader_bin_dir shader_tool_dir s files).events →
      ∃ file ∈ files, detectShaderFileType file ≠ ShaderFileType.Unknown ∧
        x = launchOf sys shader_bin_dir shader_tool_dir file := by
  induction files with
  | nil => intro s x hx; simp [processLoop_nil, launches] at hx
  | cons file rest ih =>
    intro s x hx
    by_cases hst : (processFile sys shader_bin_dir shader_tool_dir s file).status
        = Status.returned
    · rw [processLoop_cons_returned sys shader_bin_dir shader_tool_dir s file rest hst] at hx
      dsimp only at hx
      rw [launches_append, List.mem_append] at hx
      rcases hx with hx | hx
      · exact ⟨file, List.mem_cons_self _ _,
          launches_processFile_mem sys shader_bin_dir shader_tool_dir s file x hx⟩
      · obtain ⟨f, hf, h⟩ := ih _ x hx
        exact ⟨f, List.mem_cons_of_mem _ hf, h⟩
    · rw [processLoop_cons_stopped sys shader_bin_dir shader_tool_dir s file rest hst] at hx
      exact ⟨file, List.mem_cons_self _ _,
        launches_processFile_mem sys shader_bin_dir shader_tool_dir s file x hx⟩

theorem processLoop_filter {σ : Type} (sys : Sys σ) (shader_bin_dir shader_tool_dir : Path)
    (files : List Path) : ∀ (s : σ),
    processLoop sys shader_bin_dir shader_tool_dir s files =
      processLoop sys shader_bin_dir shader_tool_dir s
        (files.filter (fun f => decide (detectShaderFileType f ≠ ShaderFileType.Unknown))) := by
  induction files with
  | nil => intro s; rfl
  | cons file rest ih =>
    intro s
    by_cases hty : detectShaderFileType file = ShaderFileType.Unknown
    · have hu := processFile_unknown sys shader_bin_dir shader_tool_dir s file hty
      rw [List.filter_cons_of_neg (by simpa using hty),
        processLoop_cons_returned sys shader_bin_dir shader_tool_dir s file rest (by rw [hu]),
        hu, ← ih s]
      simp
    · rw [List.filter_cons_of_pos (by simpa using hty)]
      by_cases hst : (processFile sys shader_bin_dir shader_tool_dir s file).status
          = Status.returned
      · rw [processLoop_cons_returned sys shader_bin_dir shader_tool_dir s file rest hst,
          processLoop_cons_returned sys shader_bin_dir shader_tool_dir s file _ hst, ← ih]
      · rw [processLoop_cons_stopped sys shader_bin_dir shader_tool_dir s file rest hst,
          processLoop_cons_stopped sys shader_bin_dir shader_tool_dir s file _ hst]

theorem processLoop_append {σ : Type} (sys : Sys σ) (shader_bin_dir shader_tool_dir : Path)
    (pre post : List Path) : ∀ (s : σ),
    (processLoop sys shader_bin_dir shader_tool_dir s pre).status = Status.returned →
    processLoop sys shader_bin_dir shader_tool_dir s (pre ++ post) =
      { events := (processLoop sys shader_bin_dir shader_tool_dir s pre).events ++
          (processLoop sys shader_bin_dir shader_tool_dir
            (processLoop sys shader_bin_dir shader_tool_dir s pre).state post).events
        state := (processLoop sys shader_bin_dir shader_tool_dir
            (processLoop sys shader_bin_dir shader_tool_dir s pre).state post).state
        status := (processLoop sys shader_bin_dir shader_tool_dir
            (processLoop sys shader_bin_dir shader_tool_dir s pre).state post).status } := by
  induction pre with
  | nil => intro s _; simp [processLoop_nil]
  | cons file rest ih =>
    intro s h
    by_cases hst : (processFile sys shader_bin_dir shader_tool_dir s file).status
        = Status.returned
    · rw [processLoop_cons_returned sys shader_bin_dir shader_tool_dir s file rest hst] at h ⊢
      dsimp only at h ⊢
      rw [List.cons_append,
        processLoop_cons_returned sys shader_bin_dir shader_tool_dir s file _ hst, ih _ h]
      simp
    · rw [processLoop_cons_stopped sys shader_bin_dir shader_tool_dir s file rest hst] at h
      exact absurd h hst

theorem processShaders_of_folder {σ : Type} (sys : Sys σ) (s s1 : σ) (files : List Path)
    (shader_source_dir shader_bin_dir shader_tool_dir : Path)
    (h : createOutputFolder sys s shader_bin_dir = some s1) :
    processShaders sys s files shader_source_dir shader_bin_dir shader_tool_dir =
      processLoop sys shader_bin_dir shader_tool_dir s1 files := by
  unfold processShaders
  rw [h]

theorem processShaders_of_throw {σ : Type} (sys : Sys σ) (s : σ) (files : List Path)
    (shader_source_dir shader_bin_dir shader_tool_dir : Path)
    (h : createOutputFolder sys s shader_bin_dir = none) :
    processShaders sys s files shader_source_dir shader_bin_dir shader_tool_dir =
      { events := [], state := s, status := Status.threw } := by
  unfold processShaders
  rw [h]

/-! ## Staleness rule -/

/-- C1: staleness rule of the loop body of `processShaders`, which `processLoop`
runs once for each file. For a classified file: if the output does not exist
the compiler is launched; if source and output have last-write times `ts` and
`tb`, then no launch happens exactly when the output exists and `tb > ts` (the
file is then logged as skipped and the state is untouched), and `tb ≤ ts`,
equality included, launches the compiler for the file. -/
theorem processFile_staleness_rule {σ : Type} (sys : Sys σ)
    (shader_bin_dir shader_tool_dir : Path) (s : σ) (file : Path)
    (hty : detectShaderFileType file ≠ ShaderFileType.Unknown) :
    (sys.pathExists s (outputFile sys shader_bin_dir file) = false →
      launches (processFile sys shader_bin_dir shader_tool_dir s file).events =
        [launchOf sys shader_bin_dir shader_tool_dir file]) ∧
    (∀ ts tb : Int, sys.lastWriteTime s (inputFile sys file) = some ts →
      sys.lastWriteTime s (outputFile sys shader_bin_dir file) = some tb →
      (launches (processFile sys shader_bin_dir shader_tool_dir s file).events = [] ↔
        sys.pathExists s (outputFile sys shader_bin_dir file) = true ∧ tb > ts) ∧
      (tb ≤ ts →
        launches (processFile sys shader_bin_dir shader_tool_dir s file).events =
          [launchOf sys shader_bin_dir shader_tool_dir file]) ∧
      (sys.pathExists s (outputFile sys shader_bin_dir file) = true → tb > ts →
        processFile sys shader_bin_dir shader_tool_dir s file =
          { events := [Event.log ("Discovered shader file : ".toList ++ genericString file),
              Event.log ("Skipping file : ".toList ++ genericString (inputFile sys file))]
            state := s, status := Status.returned })) := by
  have hstale : (sys.pathExists s (outputFile sys shader_bin_dir file) = false ∨
      ∃ ts tb, sys.lastWriteTime s (inputFile sys file) = some ts ∧
        sys.lastWriteTime s (outputFile sys shader_bin_dir file) = some tb ∧ tb ≤ ts) →
      launches (processFile sys shader_bin_dir shader_tool_dir s file).events =
        [launchOf sys shader_bin_dir shader_tool_dir file] := by
    intro h
    rw [processFile_stale sys shader_bin_dir shader_tool_dir s file hty h]
    simp only [launches]
    rw [compileShader_launches]
    rfl
  refine ⟨fun hne => hstale (Or.inl hne), ?_⟩
  intro ts tb h1 h2
  refine ⟨?_, fun hle => hstale (Or.inr ⟨ts, tb, h1, h2, hle⟩), ?_⟩
  · constructor
    · intro hnil
      cases hex : sys.pathExists s (outputFile sys shader_bin_dir file) with
      | false => rw [hstale (Or.inl hex)] at hnil; simp at hnil
      | true =>
        refine ⟨rfl, ?_⟩
        by_contra hlt
        rw [hstale (Or.inr ⟨ts, tb, h1, h2, not_lt.mp hlt⟩)] at hnil
        simp at hnil
    · rintro ⟨hex, hlt⟩
      rw [processFile_fresh sys shader_bin_dir shader_tool_dir s file hty ts tb hex h1 h2 hlt]
      rfl
  · intro hex hlt
    exact processFile_fresh sys shader_bin_dir shader_tool_dir s file hty ts tb hex h1 h2 hlt

/-- C1 (witness): on the demo disk `b.fs.sc` (time 100) has the output
`b.fs.bin` (time 200), and the loop body launches nothing for it. -/
theorem processFile_staleness_rule_witness :
    detectShaderFileType "shaders\\b.fs.sc".toList ≠ ShaderFileType.Unknown ∧
    launches (processFile demoSys "bin".toList "tools".toList demoDisk
      "shaders\\b.fs.sc".toList).events = [] :=
  ⟨by decide,
    ((processFile_staleness_rule demoSys "bin".toList "tools".toList demoDisk
      "shaders\\b.fs.sc".toList (by decide)).2 100 200 (by decide) (by decide)).1.mpr
      ⟨by decide, by decide⟩⟩

/-! ## Unknown files -/

/-- C3: files classified Unknown take no part in a run of `processShaders`: the
run (events, final state and status) is the run on the list without them; a list
of Unknown files only produces no event; the loop body on an Unknown file does
nothing, whatever the system answers (no event, same state, no exception of a
timestamp read); and every launch of the run is the launch built for a file of
the list that is not classified Unknown. -/
theorem processShaders_ignores_unknown {σ : Type} (sys : Sys σ) (s : σ) (files : List Path)
    (shader_source_dir shader_bin_dir shader_tool_dir : Path) :
    processShaders sys s files shader_source_dir shader_bin_dir shader_tool_dir =
      processShaders sys s
        (files.filter (fun f => decide (detectShaderFileType f ≠ ShaderFileType.Unknown)))
        shader_source_dir shader_bin_dir shader_tool_dir ∧
    ((∀ f ∈ files, detectShaderFileType f = ShaderFileType.Unknown) →
      (processShaders sys s files shader_source_dir shader_bin_dir shader_tool_dir).events
        = []) ∧
    (∀ (st : σ) (file : Path), detectShaderFileType file = ShaderFileType.Unknown →
      processFile sys shader_bin_dir shader_tool_dir st file =
        { events := [], state := st, status := Status.returned }) ∧
    (∀ x ∈ launches
        (processShaders sys s files shader_source_dir shader_bin_dir shader_tool_dir).events,
      ∃ file ∈ files, detectShaderFileType file ≠ ShaderFileType.Unknown ∧
        x = launchOf sys shader_bin_dir shader_tool_dir file) := by
  refine ⟨?_, ?_, fun st file h =>
    processFile_unknown sys shader_bin_dir shader_tool_dir st file h, ?_⟩
  · cases h : createOutputFolder sys s shader_bin_dir with
    | none =>
      rw [processShaders_of_throw sys s _ _ _ _ h, processShaders_of_throw sys s _ _ _ _ h]
    | some s1 =>
      rw [processShaders_of_folder sys s s1 _ _ _ _ h,
        processShaders_of_folder sys s s1 _ _ _ _ h]
      exact processLoop_filter sys shader_bin_dir shader_tool_dir files s1
  · intro hall
    cases h : createOutputFolder sys s shader_bin_dir with
    | none => rw [processShaders_of_throw sys s _ _ _ _ h]
    | some s1 =>
      rw [processShaders_of_folder sys s s1 _ _ _ _ h,
        processLoop_filter sys shader_bin_dir shader_tool_dir files s1]
      have hnil : files.filter
          (fun f => decide (detectShaderFileType f ≠ ShaderFileType.Unknown)) = [] := by
        rw [List.filter_eq_nil_iff]
        intro f hf
        simpa using hall f hf
      rw [hnil]
      rfl
  · intro x hx
    cases h : createOutputFolder sys s shader_bin_dir with
    | none =>
      rw [processShaders_of_throw sys s _ _ _ _ h] at hx
      simp [launches] at hx
    | some s1 =>
      rw [processShaders_of_folder sys s s1 _ _ _ _ h] at hx
      exact launches_processLoop_mem sys shader_bin_dir shader_tool_dir files s1 x hx

/-- C3 (witness): a list of two Unknown files produces no event at all. -/
theorem processShaders_ignores_unknown_witness :
    (processShaders demoSys demoDisk ["shaders\\common.sc".toList, "shaders\\c.txt".toList]
      "shaders".toList "bin".toList "tools".toList).events = [] :=
  (processShaders_ignores_unknown demoSys demoDisk
    ["shaders\\common.sc".toList, "shaders\\c.txt".toList]
    "shaders".toList "bin".toList "tools".toList).2.1 (by decide)

/-! ## The command -/

theorem buildCommand_eq {σ : Type} (sys : Sys σ)
    (shader_tool_dir input_file output_file : Path) (shader_type_wstr : List Char) :
    buildCommand sys shader_tool_dir input_file output_file shader_type_wstr =
      "-f \"".toList ++ input_file ++ "\" -o \"".toList ++ output_file
        ++ "\" --type ".toList ++ shader_type_wstr
        ++ " --platform windows --profile 120 -i \"".toList ++ sys.absolute shader_tool_dir
        ++ "\" --varyingdef \"".toList
        ++ sys.absolute (pathAppend shader_tool_dir "varying.def.sc".toList)
        ++ "\"".toList := by
  have e1 : "\" -o \"".toList = "\" ".toList ++ "-o \"".toList := by decide
  have e2 : "\" --type ".toList = "\" ".toList ++ "--type ".toList := by decide
  have e3 : " --platform windows --profile 120 -i \"".toList =
      " ".toList ++ ("--platform windows ".toList ++ ("--profile 120 ".toList
        ++ "-i \"".toList)) := by decide
  have e4 : "\" --varyingdef \"".toList = "\" ".toList ++ "--varyingdef \"".toList := by
    decide
  unfold buildCommand varyingFilePath
  rw [e1, e2, e3, e4]
  simp only [List.append_assoc]

/-- C4: for a file classified Vertex or Fragment that is rebuilt (its output
does not exist, or is not strictly newer than the source), the loop body makes
one launch, of the absolute path of `shadercRelease.exe` in the tool directory,
with the argument string `-f "<absolute source>" -o "<absolute (output
directory / filename) with the extension replaced by .bin>" --type
<vertex|fragment> --platform windows --profile 120 -i "<absolute tool
directory>" --varyingdef "<absolute tool directory / varying.def.sc>"`, every
path between double quotes. -/
theorem processFile_command_structure {σ : Type} (sys : Sys σ)
    (shader_bin_dir shader_tool_dir : Path) (s : σ) (file : Path)
    (hty : detectShaderFileType file = ShaderFileType.Vertex ∨
      detectShaderFileType file = ShaderFileType.Fragment)
    (hst : sys.pathExists s (outputFile sys shader_bin_dir file) = false ∨
      ∃ ts tb, sys.lastWriteTime s (inputFile sys file) = some ts ∧
        sys.lastWriteTime s (outputFile sys shader_bin_dir file) = some tb ∧ tb ≤ ts) :
    launches (processFile sys shader_bin_dir shader_tool_dir s file).events =
      [(sys.absolute (pathAppend shader_tool_dir "shadercRelease.exe".toList),
        "-f \"".toList ++ sys.absolute file
          ++ "\" -o \"".toList
          ++ replaceExtension (sys.absolute (pathAppend shader_bin_dir (filename file)))
              ".bin".toList
          ++ "\" --type ".toList
          ++ (if detectShaderFileType file = ShaderFileType.Vertex then "vertex".toList
              else "fragment".toList)
          ++ " --platform windows --profile 120 -i \"".toList
          ++ sys.absolute shader_tool_dir
          ++ "\" --varyingdef \"".toList
          ++ sys.absolute (pathAppend shader_tool_dir "varying.def.sc".toList)
          ++ "\"".toList)] := by
  have hne : detectShaderFileType file ≠ ShaderFileType.Unknown := by
    rcases hty with h | h <;> rw [h] <;> decide
  have hname : shaderTypeToWString (detectShaderFileType file) =
      (if detectShaderFileType file = ShaderFileType.Vertex then "vertex".toList
        else "fragment".toList) := by
    rcases hty with h | h <;> rw [h] <;> rfl
  rw [processFile_stale sys shader_bin_dir shader_tool_dir s file hne hst]
  simp only [launches]
  rw [compileShader_launches, buildCommand_eq, hname]
  rfl

/-- C4 (witness): the launch for `a.vs.sc`, which has no output on the demo disk. -/
theorem processFile_command_structure_witness :
    launches (processFile demoSys "bin".toList "tools".toList demoDisk
      "shaders\\a.vs.sc".toList).events =
      [("C:\\w\\tools\\shadercRelease.exe".toList,
        ("-f \"C:\\w\\shaders\\a.vs.sc\" -o \"C:\\w\\bin\\a.vs.bin\" --type vertex "
          ++ "--platform windows --profile 120 -i \"C:\\w\\tools\" "
          ++ "--varyingdef \"C:\\w\\tools\\varying.def.sc\"").toList)] :=
  (processFile_command_structure demoSys "bin".toList "tools".toList demoDisk
    "shaders\\a.vs.sc".toList (Or.inl (by decide)) (Or.inl (by decide))).trans (by decide)

/-- Every argument string a run hands to `runProcess` holds the literals
`--platform windows` and `--profile 120` between the `--type` value and the `-i`
flag, whatever the files and directories are. -/
theorem launch_arguments_hold_literals {σ : Type} (sys : Sys σ) (s : σ)
    (files : List Path) (shader_source_dir shader_bin_dir shader_tool_dir : Path)
    (x : List Char × List Char)
    (hx : x ∈ launches
      (processShaders sys s files shader_source_dir shader_bin_dir shader_tool_dir).events) :
    ∃ file ∈ files, ∃ type_name ∈ ["vertex".toList, "fragment".toList],
      x.2 = "-f \"".toList ++ inputFile sys file ++ "\" -o \"".toList
        ++ outputFile sys shader_bin_dir file ++ "\" --type ".toList ++ type_name
        ++ " --platform windows --profile 120 -i \"".toList
        ++ sys.absolute shader_tool_dir ++ "\" --varyingdef \"".toList
        ++ varyingFilePath sys shader_tool_dir ++ "\"".toList := by
  have hloop : ∃ s1, x ∈ launches
      (processLoop sys shader_bin_dir shader_tool_dir s1 files).events := by
    cases h : createOutputFolder sys s shader_bin_dir with
    | none =>
      rw [processShaders_of_throw sys s _ _ _ _ h] at hx
      simp [launches] at hx
    | some s1 =>
      rw [processShaders_of_folder sys s s1 _ _ _ _ h] at hx
      exact ⟨s1, hx⟩
  obtain ⟨s1, hx1⟩ := hloop
  obtain ⟨file, hf, hty, rfl⟩ :=
    launches_processLoop_mem sys shader_bin_dir shader_tool_dir files s1 x hx1
  refine ⟨file, hf, shaderTypeToWString (detectShaderFileType file), ?_, ?_⟩
  · cases h : detectShaderFileType file with
    | Unknown => exact absurd h hty
    | Vertex => simp [shaderTypeToWString]
    | Fragment => simp [shaderTypeToWString]
  · unfold launchOf
    dsimp only
    rw [buildCommand_eq]
    rfl

/-- C5 (failing input): the caller of `example.cpp` hands a platform token and
a profile token to `processShaders`, which has no parameter for them. On the
demo disk the argument string of the one launch holds the literals `--platform
windows` and `--profile 120`; for a caller whose tokens are `linux` and `spirv`
it carries neither `--platform linux` nor `--profile spirv`. -/
theorem processShaders_platform_profile_not_inputs :
    (launches (processShaders demoSys demoDisk
      ["shaders\\a.vs.sc".toList, "shaders\\b.fs.sc".toList]
      "shaders".toList "bin".toList "tools".toList).events).map
      (fun x => (occursIn "--platform linux".toList x.2, occursIn "--profile spirv".toList x.2,
        occursIn "--platform windows ".toList x.2, occursIn "--profile 120 ".toList x.2))
      = [(false, false, true, true)] := by
  decide

/-! ## Discovery -/

theorem foldl_push_filter {α : Type} (keep : α → Bool) (l : List α) :
    ∀ (acc : List α),
      l.foldl (fun out x => if keep x = true then out ++ [x] else out) acc
        = acc ++ l.filter keep := by
  induction l with
  | nil => intro acc; simp
  | cons a t ih =>
    intro acc
    rw [List.foldl_cons, ih]
    by_cases h : keep a = true
    · rw [if_pos h, List.filter_cons, if_pos h]; simp
    · rw [if_neg h, List.filter_cons, if_neg h]

theorem findShaderFiles_eq_filter {σ : Type} (sys : Sys σ) (s : σ) (path : Path)
    (hex : sys.pathExists s path = true) (hdir : sys.isDirectory s path = true) :
    findShaderFiles sys s path =
      (sys.directoryEntries s path).filter
        (fun e => sys.isRegularFile s e && decide (extension e = ".sc".toList)) := by
  unfold findShaderFiles
  rw [hex, hdir]
  simp only [Bool.not_true, Bool.or_self, Bool.false_eq_true, if_false]
  have h := foldl_push_filter
    (fun e => sys.isRegularFile s e && decide (extension e = ".sc".toList))
    (sys.directoryEntries s path) []
  rw [List.nil_append] at h
  rw [← h]
  congr 1
  funext out e
  by_cases h1 : sys.isRegularFile s e = true
  · by_cases h2 : extension e = ".sc".toList
    · simp [h1, h2]
    · simp [h1, h2]
  · simp [h1]

theorem findShaderFiles_invalid {σ : Type} (sys : Sys σ) (s : σ) (path : Path)
    (h : sys.pathExists s path = false ∨ sys.isDirectory s path = false) :
    findShaderFiles sys s path = [] := by
  unfold findShaderFiles
  rcases h with h | h <;> simp [h]

/-- C9: `findShaderFiles` returns the empty sequence for a path that does not
exist or is not a directory; for an existing directory it returns the entries of
the directory iterator, in enumeration order, that are regular files with the
extension `.sc`, and nothing else (entries of subdirectories are not visited). -/
theorem findShaderFiles_discovery {σ : Type} (sys : Sys σ) (s : σ) (path : Path) :
    ((sys.pathExists s path = false ∨ sys.isDirectory s path = false) →
      findShaderFiles sys s path = []) ∧
    (sys.pathExists s path = true → sys.isDirectory s path = true →
      findShaderFiles sys s path =
        (sys.directoryEntries s path).filter
          (fun e => sys.isRegularFile s e && decide (extension e = ".sc".toList))) :=
  ⟨findShaderFiles_invalid sys s path, findShaderFiles_eq_filter sys s path⟩

/-- C9 (witness): a missing directory, a regular file in place of a directory,
and the directory `shaders` of the demo disk. -/
theorem findShaderFiles_discovery_witness :
    findShaderFiles demoSys demoDisk "nowhere".toList = [] ∧
    findShaderFiles demoSys demoDisk "shaders\\c.txt".toList = [] ∧
    findShaderFiles demoSys demoDisk "shaders".toList =
      ["shaders\\a.vs.sc".toList, "shaders\\b.fs.sc".toList, "shaders\\common.sc".toList] :=
  ⟨(findShaderFiles_discovery demoSys demoDisk "nowhere".toList).1 (Or.inl (by decide)),
    (findShaderFiles_discovery demoSys demoDisk "shaders\\c.txt".toList).1
      (Or.inr (by decide)),
    ((findShaderFiles_discovery demoSys demoDisk "shaders".toList).2 (by decide)
      (by decide)).trans (by decide)⟩

/-! ## Launch failure -/

/-- C7: launch failure is handled locally. Let the files `pre` be processed (the
run over them returns, in state `st`), let `file` be classified and in need of a
rebuild in `st`, and let `CreateProcessW` fail for it. Then `runProcess` returns
false after logging `Failed to start process, error: <GetLastError()>`; the run
over `pre ++ file :: rest` is the run over `pre`, then for `file` the discovery
message, the launch and the failure diagnostic (no success message), then the
whole run of the loop over `rest` from the state the failed call left. -/
theorem processShaders_launch_failure_local {σ : Type} (sys : Sys σ) (s st : σ)
    (pre rest : List Path) (file : Path)
    (shader_source_dir shader_bin_dir shader_tool_dir : Path)
    (hpre : (processShaders sys s pre shader_source_dir shader_bin_dir shader_tool_dir).status
      = Status.returned)
    (hstate : (processShaders sys s pre shader_source_dir shader_bin_dir shader_tool_dir).state
      = st)
    (hty : detectShaderFileType file ≠ ShaderFileType.Unknown)
    (hst : sys.pathExists st (outputFile sys shader_bin_dir file) = false ∨
      ∃ ts tb, sys.lastWriteTime st (inputFile sys file) = some ts ∧
        sys.lastWriteTime st (outputFile sys shader_bin_dir file) = some tb ∧ tb ≤ ts)
    (hfail : (sys.createProcessW st (launchOf sys shader_bin_dir shader_tool_dir file).1
      (launchOf sys shader_bin_dir shader_tool_dir file).2).1 = false) :
    runProcess sys st (launchOf sys shader_bin_dir shader_tool_dir file).1
        (launchOf sys shader_bin_dir shader_tool_dir file).2 =
      { result := some false
        events := [Event.launch (launchOf sys shader_bin_dir shader_tool_dir file).1
            (launchOf sys shader_bin_dir shader_tool_dir file).2,
          Event.log ("Failed to start process, error: ".toList ++
            (Nat.repr (sys.getLastError
              (sys.createProcessW st (launchOf sys shader_bin_dir shader_tool_dir file).1
                (launchOf sys shader_bin_dir shader_tool_dir file).2).2)).toList)]
        state := (sys.createProcessW st (launchOf sys shader_bin_dir shader_tool_dir file).1
          (launchOf sys shader_bin_dir shader_tool_dir file).2).2 } ∧
    processShaders sys s (pre ++ file :: rest) shader_source_dir shader_bin_dir shader_tool_dir =
      { events :=
          (processShaders sys s pre shader_source_dir shader_bin_dir shader_tool_dir).events ++
          ([Event.log ("Discovered shader file : ".toList ++ genericString file),
            Event.launch (launchOf sys shader_bin_dir shader_tool_dir file).1
              (launchOf sys shader_bin_dir shader_tool_dir file).2,
            Event.log ("Failed to start process, error: ".toList ++
              (Nat.repr (sys.getLastError
                (sys.createProcessW st (launchOf sys shader_bin_dir shader_tool_dir file).1
                  (launchOf sys shader_bin_dir shader_tool_dir file).2).2)).toList)] ++
          (processLoop sys shader_bin_dir shader_tool_dir
            (sys.createProcessW st (launchOf sys shader_bin_dir shader_tool_dir file).1
              (launchOf sys shader_bin_dir shader_tool_dir file).2).2 rest).events)
        state := (processLoop sys shader_bin_dir shader_tool_dir
            (sys.createProcessW st (launchOf sys shader_bin_dir shader_tool_dir file).1
              (launchOf sys shader_bin_dir shader_tool_dir file).2).2 rest).state
        status := (processLoop sys shader_bin_dir shader_tool_dir
            (sys.createProcessW st (launchOf sys shader_bin_dir shader_tool_dir file).1
              (launchOf sys shader_bin_dir shader_tool_dir file).2).2 rest).status } := by
  have hrun := runProcess_failed sys st _ _ hfail
  refine ⟨hrun, ?_⟩
  have hfile : processFile sys shader_bin_dir shader_tool_dir st file =
      { events := [Event.log ("Discovered shader file : ".toList ++ genericString file),
            Event.launch (launchOf sys shader_bin_dir shader_tool_dir file).1
              (launchOf sys shader_bin_dir shader_tool_dir file).2,
            Event.log ("Failed to start process, error: ".toList ++
              (Nat.repr (sys.getLastError
                (sys.createProcessW st (launchOf sys shader_bin_dir shader_tool_dir file).1
                  (launchOf sys shader_bin_dir shader_tool_dir file).2).2)).toList)]
        state := (sys.createProcessW st (launchOf sys shader_bin_dir shader_tool_dir file).1
              (launchOf sys shader_bin_dir shader_tool_dir file).2).2
        status := Status.returned } := by
    rw [processFile_stale sys shader_bin_dir shader_tool_dir st file hty hst,
      compileShader_failed sys shader_tool_dir st _ _ _ hfail]
    dsimp only
    have hrun2 : runProcess sys st (shaderExecPath sys shader_tool_dir)
        (buildCommand sys shader_tool_dir (inputFile sys file)
          (outputFile sys shader_bin_dir file)
          (shaderTypeToWString (detectShaderFileType file))) = _ := hrun
    rw [hrun2]
    rfl
  cases h : createOutputFolder sys s shader_bin_dir with
  | none =>
    rw [processShaders_of_throw sys s _ _ _ _ h] at hpre
    simp at hpre
  | some s1 =>
    rw [processShaders_of_folder sys s s1 _ _ _ _ h] at hpre hstate ⊢
    rw [processShaders_of_folder sys s s1 _ _ _ _ h,
      processLoop_append sys shader_bin_dir shader_tool_dir pre (file :: rest) _ hpre, hstate,
      processLoop_cons_returned sys shader_bin_dir shader_tool_dir st file rest
        (by rw [hfile]),
      hfile]

/-- C7 (witness): without the compiler executable, after the up-to-date
`b.fs.sc` the launch for `a.vs.sc` fails with error 2; no success message is
logged for it, and `d.fs.sc` after it is still discovered and launched. -/
theorem processShaders_launch_failure_local_witness :
    logged (processShaders demoSys demoDiskNoCompiler
      (["shaders\\b.fs.sc".toList] ++ "shaders\\a.vs.sc".toList :: ["shaders\\d.fs.sc".toList])
      "shaders".toList "bin".toList "tools".toList).events =
      ["Discovered shader file : shaders/b.fs.sc".toList,
       "Skipping file : C:/w/shaders/b.fs.sc".toList,
       "Discovered shader file : shaders/a.vs.sc".toList,
       "Failed to start process, error: 2".toList,
       "Discovered shader file : shaders/d.fs.sc".toList,
       "Failed to start process, error: 2".toList] ∧
    (launches (processShaders demoSys demoDiskNoCompiler
      (["shaders\\b.fs.sc".toList] ++ "shaders\\a.vs.sc".toList :: ["shaders\\d.fs.sc".toList])
      "shaders".toList "bin".toList "tools".toList).events).length = 2 :=
  ⟨(congrArg (fun r => logged r.events)
    (processShaders_launch_failure_local demoSys demoDiskNoCompiler demoDiskNoCompiler
      ["shaders\\b.fs.sc".toList] ["shaders\\d.fs.sc".toList] "shaders\\a.vs.sc".toList
      "shaders".toList "bin".toList "tools".toList (by decide) rfl (by decide)
      (Or.inl (by decide)) (by decide)).2).trans (by decide),
   by decide⟩

/-! ## Skipping unknown files -/

/-- C8 (failing input): `common.sc` is classified Unknown, and the run of
`processShaders` on the list that holds only it calls the log sink not once: the
skip is silent. -/
theorem processShaders_unknown_skip_not_logged :
    detectShaderFileType "shaders\\common.sc".toList = ShaderFileType.Unknown ∧
    logged (processShaders demoSys demoDisk ["shaders\\common.sc".toList]
      "shaders".toList "bin".toList "tools".toList).events = [] := by
  decide

/-! ## The build pass -/

/-- One step of the pass under fixed metadata: the loop body returns, keeps the
metadata, and launches for its file exactly when the file is classified and its
output is not newer. -/
theorem processFile_fixed_metadata {σ : Type} (sys : Sys σ) (hfix : MetadataFixed sys)
    (hterm : ChildrenTerminate sys) (shader_bin_dir shader_tool_dir : Path) (s0 s : σ)
    (file : Path) (hs : SameMetadata sys s0 s)
    (hread : detectShaderFileType file ≠ ShaderFileType.Unknown →
      TimestampsReadable sys s0 shader_bin_dir file) :
    (processFile sys shader_bin_dir shader_tool_dir s file).status = Status.returned ∧
    SameMetadata sys s0 (processFile sys shader_bin_dir shader_tool_dir s file).state ∧
    launches (processFile sys shader_bin_dir shader_tool_dir s file).events =
      if (decide (detectShaderFileType file ≠ ShaderFileType.Unknown) &&
          !outputIsNewer sys s0 shader_bin_dir file) = true
      then [launchOf sys shader_bin_dir shader_tool_dir file] else [] := by
  by_cases hty : detectShaderFileType file = ShaderFileType.Unknown
  · rw [processFile_unknown sys shader_bin_dir shader_tool_dir s file hty]
    refine ⟨rfl, hs, ?_⟩
    simp [hty, launches]
  · have hcomp := compileShader_returns sys hfix hterm shader_tool_dir s
      (detectShaderFileType file) (inputFile sys file) (outputFile sys shader_bin_dir file)
    have hstale : (sys.pathExists s (outputFile sys shader_bin_dir file) = false ∨
        ∃ ts tb, sys.lastWriteTime s (inputFile sys file) = some ts ∧
          sys.lastWriteTime s (outputFile sys shader_bin_dir file) = some tb ∧ tb ≤ ts) →
        outputIsNewer sys s shader_bin_dir file = false →
        (processFile sys shader_bin_dir shader_tool_dir s file).status = Status.returned ∧
        SameMetadata sys s0 (processFile sys shader_bin_dir shader_tool_dir s file).state ∧
        launches (processFile sys shader_bin_dir shader_tool_dir s file).events =
          if (decide (detectShaderFileType file ≠ ShaderFileType.Unknown) &&
              !outputIsNewer sys s0 shader_bin_dir file) = true
          then [launchOf sys shader_bin_dir shader_tool_dir file] else [] := by
      intro h hnew
      rw [← outputIsNewer_congr hs, hnew,
        processFile_stale sys shader_bin_dir shader_tool_dir s file hty h]
      refine ⟨hcomp.1, hs.trans hcomp.2, ?_⟩
      simp only [launches]
      rw [compileShader_launches]
      simp [hty, launchOf]
    cases hex : sys.pathExists s (outputFile sys shader_bin_dir file) with
    | false =>
      exact hstale (Or.inl hex) (by unfold outputIsNewer; rw [hex]; rfl)
    | true =>
      have hex0 : sys.pathExists s0 (outputFile sys shader_bin_dir file) = true := by
        rw [← hs.1]; exact hex
      obtain ⟨h1, h2⟩ := hread hty hex0
      obtain ⟨ts, hts⟩ := Option.isSome_iff_exists.mp h1
      obtain ⟨tb, htb⟩ := Option.isSome_iff_exists.mp h2
      rw [← hs.2] at hts htb
      by_cases hlt : tb > ts
      · rw [processFile_fresh sys shader_bin_dir shader_tool_dir s file hty ts tb hex hts htb
          hlt]
        refine ⟨rfl, hs, ?_⟩
        have hnew : outputIsNewer sys s shader_bin_dir file = true := by
          unfold outputIsNewer
          rw [hex, hts, htb]
          simpa using hlt
        rw [← outputIsNewer_congr hs, hnew]
        simp [launches]
      · refine hstale (Or.inr ⟨ts, tb, hts, htb, not_lt.mp hlt⟩) ?_
        unfold outputIsNewer
        rw [hex, hts, htb]
        simpa using hlt

theorem processLoop_fixed_metadata {σ : Type} (sys : Sys σ) (hfix : MetadataFixed sys)
    (hterm : ChildrenTerminate sys) (shader_bin_dir shader_tool_dir : Path) (s0 : σ)
    (files : List Path) :
    ∀ (s : σ), SameMetadata sys s0 s →
    (∀ f ∈ files, detectShaderFileType f ≠ ShaderFileType.Unknown →
      TimestampsReadable sys s0 shader_bin_dir f) →
    (processLoop sys shader_bin_dir shader_tool_dir s files).status = Status.returned ∧
    launches (processLoop sys shader_bin_dir shader_tool_dir s files).events =
      (files.filter (fun f => decide (detectShaderFileType f ≠ ShaderFileType.Unknown) &&
        !outputIsNewer sys s0 shader_bin_dir f)).map
        (fun f => launchOf sys shader_bin_dir shader_tool_dir f) := by
  induction files with
  | nil => intro s _ _; exact ⟨rfl, rfl⟩
  | cons file rest ih =>
    intro s hs hread
    obtain ⟨h1, h2, h3⟩ := processFile_fixed_metadata sys hfix hterm shader_bin_dir
      shader_tool_dir s0 s file hs (hread file (List.mem_cons_self _ _))
    obtain ⟨i1, i2⟩ := ih _ h2 (fun f hf => hread f (List.mem_cons_of_mem _ hf))
    rw [processLoop_cons_returned sys shader_bin_dir shader_tool_dir s file rest h1]
    refine ⟨i1, ?_⟩
    dsimp only
    rw [launches_append, h3, i2]
    by_cases hc : (decide (detectShaderFileType file ≠ ShaderFileType.Unknown) &&
        !outputIsNewer sys s0 shader_bin_dir file) = true
    · rw [if_pos hc, List.filter_cons, if_pos hc]
      rfl
    · rw [if_neg hc, List.filter_cons, if_neg hc]
      rfl

theorem stem_filename (p : Path) : stem (filename p) = stem p := by
  unfold stem
  rw [filename_eq_self (filename_no_separator p)]

theorem detectShaderFileType_filename (p : Path) :
    detectShaderFileType (filename p) = detectShaderFileType p := by
  unfold detectShaderFileType
  rw [stem_filename]

theorem mem_findShaderFiles {σ : Type} (sys : Sys σ) (s : σ) (path e : Path)
    (h : e ∈ findShaderFiles sys s path) :
    e ∈ sys.directoryEntries s path ∧ sys.isRegularFile s e = true ∧
      extension e = ".sc".toList := by
  by_cases hv : sys.pathExists s path = true ∧ sys.isDirectory s path = true
  · rw [findShaderFiles_eq_filter sys s path hv.1 hv.2, List.mem_filter] at h
    refine ⟨h.1, ?_⟩
    simpa using h.2
  · rw [findShaderFiles_invalid sys s path (by
      by_cases h1 : sys.pathExists s path = true
      · right
        by_cases h2 : sys.isDirectory s path = true
        · exact absurd ⟨h1, h2⟩ hv
        · simpa using h2
      · left; simpa using h1)] at h
    simp at h

theorem outputIsNewer_readable {σ : Type} (sys : Sys σ) (s : σ) (shader_bin_dir file : Path)
    (h : outputIsNewer sys s shader_bin_dir file = true) :
    TimestampsReadable sys s shader_bin_dir file := by
  intro _
  unfold outputIsNewer at h
  rw [Bool.and_eq_true] at h
  have h2 := h.2
  split at h2
  · rename_i ts tb h3 h4
    rw [h3, h4]
    exact ⟨rfl, rfl⟩
  · exact absurd h2 (by decide)

/-- C6 (as amended): sequential build pass. Let creating and waiting for a child
process leave existence and last-write times as they are, let every child
terminate, and let the output folder exist or be created, so that the loop
starts in a state `s1`. If the last-write times the loop reads in `s1` are
available, `processShaders` returns and the sequence of its launches is the
input list, in its order, filtered to the files that are classified (not
Unknown) and whose output is not strictly newer than the source, with one
launch for each such entry; in particular, on the list of a file named
`a.vs.sc` without output and a file named `b.fs.sc` with a newer output there is
one launch, for `a.vs.sc`; and a file named `c.txt` is in no result of
`findShaderFiles`. -/
theorem processShaders_launch_sequence {σ : Type} (sys : Sys σ) (s s1 : σ)
    (shader_source_dir shader_bin_dir shader_tool_dir : Path)
    (hfix : MetadataFixed sys) (hterm : ChildrenTerminate sys)
    (hfolder : createOutputFolder sys s shader_bin_dir = some s1) :
    (∀ files : List Path,
      (∀ f ∈ files, detectShaderFileType f ≠ ShaderFileType.Unknown →
        TimestampsReadable sys s1 shader_bin_dir f) →
      (processShaders sys s files shader_source_dir shader_bin_dir shader_tool_dir).status
        = Status.returned ∧
      launches
          (processShaders sys s files shader_source_dir shader_bin_dir shader_tool_dir).events =
        (files.filter (fun f => decide (detectShaderFileType f ≠ ShaderFileType.Unknown) &&
          !outputIsNewer sys s1 shader_bin_dir f)).map
          (fun f => launchOf sys shader_bin_dir shader_tool_dir f)) ∧
    (∀ a b : Path, filename a = "a.vs.sc".toList → filename b = "b.fs.sc".toList →
      sys.pathExists s1 (outputFile sys shader_bin_dir a) = false →
      outputIsNewer sys s1 shader_bin_dir b = true →
      launches
          (processShaders sys s [a, b] shader_source_dir shader_bin_dir shader_tool_dir).events =
        [launchOf sys shader_bin_dir shader_tool_dir a]) ∧
    (∀ (st : σ) (directory c : Path), filename c = "c.txt".toList →
      c ∉ findShaderFiles sys st directory) := by
  refine ⟨?_, ?_, ?_⟩
  · intro files hread
    rw [processShaders_of_folder sys s s1 _ _ _ _ hfolder]
    exact processLoop_fixed_metadata sys hfix hterm shader_bin_dir shader_tool_dir s1 files s1
      (SameMetadata.refl sys s1) hread
  · intro a b ha hb hout hnew
    have hta : detectShaderFileType a = ShaderFileType.Vertex := by
      rw [← detectShaderFileType_filename, ha]; decide
    have htb : detectShaderFileType b = ShaderFileType.Fragment := by
      rw [← detectShaderFileType_filename, hb]; decide
    have hna : outputIsNewer sys s1 shader_bin_dir a = false := by
      unfold outputIsNewer
      rw [hout]
      rfl
    have hread : ∀ f ∈ [a, b], detectShaderFileType f ≠ ShaderFileType.Unknown →
        TimestampsReadable sys s1 shader_bin_dir f := by
      intro f hf _
      rcases List.mem_cons.mp hf with h | h
      · rw [h]
        intro hex
        rw [hout] at hex
        exact absurd hex (by decide)
      · rw [List.mem_singleton.mp h]
        exact outputIsNewer_readable sys s1 shader_bin_dir b hnew
    rw [processShaders_of_folder sys s s1 _ _ _ _ hfolder,
      (processLoop_fixed_metadata sys hfix hterm shader_bin_dir shader_tool_dir s1 [a, b] s1
        (SameMetadata.refl sys s1) hread).2]
    simp [List.filter_cons, hta, htb, hna, hnew]
  · intro st directory c hc hmem
    have h := (mem_findShaderFiles sys st directory c hmem).2.2
    rw [← extension_filename, hc] at h
    exact absurd h (by decide)

theorem demoSys_metadataFixed : MetadataFixed demoSys := by
  refine ⟨fun s e a => SameMetadata.refl demoSys s, ?_⟩
  intro s s2 h
  have : s = s2 := by
    have h2 : some s = some s2 := h
    exact Option.some.inj h2
  rw [this]
  exact SameMetadata.refl demoSys s2

theorem demoSys_childrenTerminate : ChildrenTerminate demoSys := fun _ => rfl

/-- C6 (witness): the scenario on the demo disk. The directory holds `a.vs.sc`
(no output), `b.fs.sc` (output newer), `common.sc` and `c.txt`; the pass over
what `findShaderFiles` returns makes one launch, for `a.vs.sc`. -/
theorem processShaders_launch_sequence_witness :
    (processShaders demoSys demoDisk (findShaderFiles demoSys demoDisk "shaders".toList)
      "shaders".toList "bin".toList "tools".toList).status = Status.returned ∧
    launches (processShaders demoSys demoDisk (findShaderFiles demoSys demoDisk "shaders".toList)
      "shaders".toList "bin".toList "tools".toList).events =
      [launchOf demoSys "bin".toList "tools".toList "shaders\\a.vs.sc".toList] :=
  ⟨((processShaders_launch_sequence demoSys demoDisk demoDisk "shaders".toList "bin".toList
      "tools".toList demoSys_metadataFixed demoSys_childrenTerminate rfl).1
      (findShaderFiles demoSys demoDisk "shaders".toList) (by decide)).1,
    (((processShaders_launch_sequence demoSys demoDisk demoDisk "shaders".toList "bin".toList
      "tools".toList demoSys_metadataFixed demoSys_childrenTerminate rfl).1
      (findShaderFiles demoSys demoDisk "shaders".toList) (by decide)).2).trans (by decide)⟩

/-- C6 (counterexample): with metadata that no child process changes, the
launches are not always the filtered input list.
* Output folder `nope\out`, whose parent does not exist: `fs::create_directory`
  throws before the loop, and `a.vs.sc`, classified Vertex and without output,
  is not launched.
* A compiler that never terminates: `a.vs.sc` and `d.fs.sc` are both classified
  and without output, the wait for the first never returns and `d.fs.sc` is not
  launched.
* The list `other\b.fs.sc`, `shaders\a.vs.sc`: the output `b.fs.bin` exists, the
  source `other\b.fs.sc` has no last-write time, `fs::last_write_time` throws and
  `a.vs.sc`, classified and without output, is not launched. -/
theorem processShaders_launch_sequence_stops_early :
    (["shaders\\a.vs.sc".toList].filter
        (fun f => decide (detectShaderFileType f ≠ ShaderFileType.Unknown) &&
          !outputIsNewer demoSys demoDisk "nope\\out".toList f) =
        ["shaders\\a.vs.sc".toList] ∧
      (processShaders demoSys demoDisk ["shaders\\a.vs.sc".toList]
        "shaders".toList "nope\\out".toList "tools".toList).status = Status.threw ∧
      launches (processShaders demoSys demoDisk ["shaders\\a.vs.sc".toList]
        "shaders".toList "nope\\out".toList "tools".toList).events = []) ∧
    (["shaders\\a.vs.sc".toList, "shaders\\d.fs.sc".toList].filter
        (fun f => decide (detectShaderFileType f ≠ ShaderFileType.Unknown) &&
          !outputIsNewer demoSysHanging demoDiskStale "bin".toList f) =
        ["shaders\\a.vs.sc".toList, "shaders\\d.fs.sc".toList] ∧
      (processShaders demoSysHanging demoDiskStale
        ["shaders\\a.vs.sc".toList, "shaders\\d.fs.sc".toList]
        "shaders".toList "bin".toList "tools".toList).status = Status.hung ∧
      launches (processShaders demoSysHanging demoDiskStale
        ["shaders\\a.vs.sc".toList, "shaders\\d.fs.sc".toList]
        "shaders".toList "bin".toList "tools".toList).events =
        [launchOf demoSysHanging "bin".toList "tools".toList "shaders\\a.vs.sc".toList]) ∧
    (detectShaderFileType "shaders\\a.vs.sc".toList = ShaderFileType.Vertex ∧
      demoSys.pathExists demoDisk
        (outputFile demoSys "bin".toList "shaders\\a.vs.sc".toList) = false ∧
      (processShaders demoSys demoDisk ["other\\b.fs.sc".toList, "shaders\\a.vs.sc".toList]
        "shaders".toList "bin".toList "tools".toList).status = Status.threw ∧
      launches (processShaders demoSys demoDisk
        ["other\\b.fs.sc".toList, "shaders\\a.vs.sc".toList]
        "shaders".toList "bin".toList "tools".toList).events = []) := by
  refine ⟨⟨by decide, by decide, by decide⟩, ⟨by decide, by decide, by decide⟩,
    ⟨by decide, by decide, by decide, by decide⟩⟩

/-! ## Output paths -/

theorem extension_append (base : Path) {f : Path} (hsep : ∀ c ∈ f, isSeparator c = false)
    (hext : extension f ≠ []) : extension (base ++ f) = extension f := by
  obtain ⟨g, e, hge, he, hg, -, hx⟩ := extension_ne_nil_split hext
  rw [filename_eq_self hsep] at hge
  have hf : filename (base ++ f) = (filename base ++ g) ++ '.' :: e := by
    rw [filename_append base hsep, hge, List.append_assoc]
  have hdd : (filename base ++ g) ++ '.' :: e ≠ ['.', '.'] := by
    intro h
    have hlen := congrArg List.length h
    simp at hlen
    have hg1 : 1 ≤ g.length := List.length_pos.mpr hg
    have hb : (filename base).length = 0 := by omega
    have hb2 : filename base = [] := List.length_eq_zero.mp hb
    rw [hb2, List.nil_append, ← hge] at h
    rw [h] at hext
    exact hext (by decide)
  rw [(extension_split hf (by simp [hg]) he hdd).2, hx]

theorem replaceExtension_inj {p q : Path} (r : List Char) (he : extension p = extension q)
    (h : replaceExtension p r = replaceExtension q r) : p = q := by
  unfold replaceExtension at h
  rw [List.append_assoc, List.append_assoc] at h
  have h1 := List.append_cancel_right h
  rw [← take_append_extension p, ← take_append_extension q, h1, he]

theorem replaceExtension_append (base : Path) {f : Path} (r : List Char)
    (hsep : ∀ c ∈ f, isSeparator c = false) (hext : extension f ≠ []) :
    replaceExtension (base ++ f) r = base ++ replaceExtension f r := by
  unfold replaceExtension
  rw [extension_append base hsep hext]
  have hle : (extension f).length ≤ f.length := (extension_suffix f).length_le
  rw [List.take_append_eq_append_take, List.length_append]
  have h1 : base.length + f.length - (extension f).length - base.length
      = f.length - (extension f).length := by omega
  have h2 : List.take (base.length + f.length - (extension f).length) base = base := by
    apply List.take_of_length_le; omega
  rw [h1, h2]
  simp only [List.append_assoc]

/-- C10: let the absolute form of every entry `name` of the output directory be
a fixed prefix `base` followed by `name`. Then two files with distinct filenames
that both have the extension `.sc` have distinct output paths, and every file
returned by `findShaderFiles` has the extension `.sc`; without the common
extension the output path is not injective: files named `a.vs.sc` and `a.vs.txt`
both get the output path `base` followed by `a.vs.bin`. -/
theorem outputFile_distinct_for_sc {σ : Type} (sys : Sys σ) (shader_bin_dir base : Path)
    (hbase : ∀ name : List Char, (∀ c ∈ name, isSeparator c = false) →
      sys.absolute (pathAppend shader_bin_dir name) = base ++ name) :
    (∀ f1 f2 : Path, filename f1 ≠ filename f2 → extension f1 = ".sc".toList →
      extension f2 = ".sc".toList →
      outputFile sys shader_bin_dir f1 ≠ outputFile sys shader_bin_dir f2) ∧
    (∀ (st : σ) (directory f : Path), f ∈ findShaderFiles sys st directory →
      extension f = ".sc".toList) ∧
    (∀ f1 f2 : Path, filename f1 = "a.vs.sc".toList → filename f2 = "a.vs.txt".toList →
      outputFile sys shader_bin_dir f1 = base ++ "a.vs.bin".toList ∧
      outputFile sys shader_bin_dir f2 = base ++ "a.vs.bin".toList) := by
  refine ⟨?_, ?_, ?_⟩
  · intro f1 f2 hne h1 h2 heq
    unfold outputFile at heq
    rw [hbase _ (filename_no_separator f1), hbase _ (filename_no_separator f2)] at heq
    have e1 : extension (base ++ filename f1) = ".sc".toList := by
      rw [extension_append base (filename_no_separator f1)
        (by rw [extension_filename, h1]; decide), extension_filename, h1]
    have e2 : extension (base ++ filename f2) = ".sc".toList := by
      rw [extension_append base (filename_no_separator f2)
        (by rw [extension_filename, h2]; decide), extension_filename, h2]
    have h := replaceExtension_inj ".bin".toList (e1.trans e2.symm) heq
    exact hne (List.append_cancel_left h)
  · intro st directory f hf
    exact (mem_findShaderFiles sys st directory f hf).2.2
  · intro f1 f2 h1 h2
    unfold outputFile
    rw [hbase _ (filename_no_separator f1), hbase _ (filename_no_separator f2), h1, h2,
      replaceExtension_append base ".bin".toList (by decide) (by decide),
      replaceExtension_append base ".bin".toList (by decide) (by decide)]
    exact ⟨by rw [show replaceExtension "a.vs.sc".toList ".bin".toList = "a.vs.bin".toList
        from by decide],
      by rw [show replaceExtension "a.vs.txt".toList ".bin".toList = "a.vs.bin".toList
        from by decide]⟩

theorem demoSys_absolute_bin (name : List Char) (hsep : ∀ c ∈ name, isSeparator c = false) :
    demoSys.absolute (pathAppend "bin".toList name) = "C:\\w\\bin\\".toList ++ name := by
  show demoAbsolute (pathAppend "bin".toList name) = "C:\\w\\bin\\".toList ++ name
  have h1 : (name.head?.any isSeparator) = false := by
    cases name with
    | nil => rfl
    | cons c t => simpa using hsep c (List.mem_cons_self _ _)
  have h2 : filename "bin".toList ≠ [] := by decide
  unfold pathAppend
  rw [h1]
  simp only [Bool.false_eq_true, if_false]
  rw [if_pos h2]
  show demoAbsolute ('b' :: 'i' :: 'n' :: '\\' :: name) = _
  have h3 : ¬ (['b', 'i', 'n'] = "C:\\".toList) := by decide
  unfold demoAbsolute
  rw [show List.take 3 ('b' :: 'i' :: 'n' :: '\\' :: name) = ['b', 'i', 'n'] from rfl,
    if_neg h3]
  rfl

/-- C10 (witness): in the output directory `bin` of the demo system, `a.vs.sc`
and `a.fs.sc` get distinct output paths. -/
theorem outputFile_distinct_for_sc_witness :
    outputFile demoSys "bin".toList "shaders\\a.vs.sc".toList ≠
      outputFile demoSys "bin".toList "shaders\\a.fs.sc".toList :=
  (outputFile_distinct_for_sc demoSys "bin".toList "C:\\w\\bin\\".toList
    demoSys_absolute_bin).1 "shaders\\a.vs.sc".toList "shaders\\a.fs.sc".toList
    (by decide) (by decide) (by decide)

end ShaderProcessor
